import Mathlib

/-!
Verification of the MyBody health-tracker data/derivation layer.

The TypeScript source is shallowly embedded: timestamps are integers
(milliseconds since the epoch) in a fixed-offset local-time model with no
DST, so `toLocaleDateString` grouping keys become epoch-day integers and
`setHours` becomes replacing the time-of-day component.  JS floating-point
calorie arithmetic is embedded over `ℚ`.  Stateful React handlers become
pure functions from old state to new state.
-/

namespace MyBody

/-- One day in milliseconds. -/
def dayMs : ℤ := 86400000

/-- Local calendar day of a timestamp (the grouping key that
`new Date(x).toLocaleDateString()` produces in the fixed-offset model).
`Int` division is euclidean, which is floor division for the positive
divisor `dayMs`. -/
def epochDay (t : ℤ) : ℤ := t / dayMs

/-- Milliseconds elapsed since local midnight of the day of the timestamp. -/
def timeOfDayMs (t : ℤ) : ℤ := t % dayMs

/-- JS `Date.prototype.getDay`: day of week with 0 = Sunday.  Epoch day 0
(1970-01-01) is a Thursday, hence the offset 4. -/
def jsGetDay (t : ℤ) : ℤ := (epochDay t + 4) % 7

/-- Effect of `d.setHours(h, m, s, ms)`: keep the calendar day, replace the
time-of-day with `ms` milliseconds past local midnight. -/
def setTimeOfDay (t ms : ℤ) : ℤ := epochDay t * dayMs + ms

/-- `endOfDay` from the source: `d.setHours(23, 59, 59, 999)`. -/
def endOfDayTs (t : ℤ) : ℤ := setTimeOfDay t (dayMs - 1)

/-- JS `Math.round` on exact rational inputs (half rounds toward +∞). -/
def jsRound (q : ℚ) : ℤ := ⌊q + 1 / 2⌋

/-- JS `Math.ceil` on exact rational inputs. -/
def jsCeil (q : ℚ) : ℤ := ⌈q⌉

/-- Profile gender, from `types.ts`: `gender: male | female`. -/
inductive Gender
  | male
  | female
deriving DecidableEq, Repr

/-- `UserProfile` from `types.ts` (reminder/presentation fields that no
verified operation reads are omitted). -/
structure UserProfile where
  id : String
  name : String
  gender : Gender
  age : ℤ
  heightCm : ℤ
deriving DecidableEq, Repr

/-- Optional macro block of a `FoodEntry`. -/
structure Macros where
  protein : ℚ
  carbs : ℚ
  fat : ℚ
deriving DecidableEq, Repr

/-- `FoodEntry` from `types.ts` (imageUrl/type presentation fields omitted). -/
structure FoodEntry where
  id : String
  date : ℤ
  name : String
  calories : ℚ
  macros : Option Macros := none
deriving DecidableEq, Repr

/-- `ExerciseEntry` from `types.ts`. -/
structure ExerciseEntry where
  id : String
  date : ℤ
  name : String
  durationMinutes : ℚ
  caloriesBurned : ℚ
  steps : Option ℕ := none
deriving DecidableEq, Repr

/-- `WeightEntry` from `types.ts`. -/
structure WeightEntry where
  id : String
  date : ℤ
  weight : ℚ
deriving DecidableEq, Repr, Inhabited

/-- `calculateBMR` from `App.tsx`:
`let bmr = (10 * w) + (6.25 * p.heightCm) - (5 * p.age);`
`if (p.gender === male) bmr += 5; else bmr -= 161;`. -/
def calculateBMR (p : UserProfile) (w : ℚ) : ℚ :=
  let bmr := 10 * w + 6.25 * (p.heightCm : ℚ) - 5 * (p.age : ℚ)
  if p.gender = Gender.male then bmr + 5 else bmr - 161

/-- `getStartOfWeek` from `geminiService.ts` (StatsModule helpers):
`d.setDate(d.getDate() - d.getDay()); d.setHours(0,0,0,0)`.  Shifting the
day-of-month by `-getDay()` days keeps the time-of-day, i.e. subtracts
`getDay() * dayMs` in the fixed-offset model. -/
def getStartOfWeek (t : ℤ) : ℤ := setTimeOfDay (t - jsGetDay t * dayMs) 0

/-- `getEndOfWeek` from `geminiService.ts`:
`const d = getStartOfWeek(date); d.setDate(d.getDate() + 6); d.setHours(23,59,59,999)`. -/
def getEndOfWeek (t : ℤ) : ℤ := setTimeOfDay (getStartOfWeek t + 6 * dayMs) (dayMs - 1)

/-- C1: For every profile and weight `w`, `calculateBMR` returns exactly
`10*w + 6.25*heightCm - 5*age + 5` for a male profile and
`10*w + 6.25*heightCm - 5*age - 161` otherwise; in particular a female
profile with age 30 and heightCm 165 at weight 60 kg yields 1320.25. -/
theorem calculateBMR_spec :
    (∀ (p : UserProfile) (w : ℚ),
        calculateBMR p w =
          10 * w + 6.25 * (p.heightCm : ℚ) - 5 * (p.age : ℚ) +
            (if p.gender = Gender.male then 5 else -161)) ∧
      calculateBMR
          { id := "default_user_1", name := "User", gender := Gender.female,
            age := 30, heightCm := 165 } 60 = 1320.25 := by
  constructor
  · intro p w
    unfold calculateBMR
    split <;> ring
  · simp only [calculateBMR]
    norm_num
    decide

/-- C9: For every timestamp, `getStartOfWeek` lands on a Sunday
(`getDay() = 0`) at local midnight at or before the timestamp, and
`getEndOfWeek` is six days later on a Saturday at 23:59:59.999 local time,
at or after the timestamp: the week bucket covers Sunday through Saturday. -/
theorem weekBounds_spec (t : ℤ) :
    jsGetDay (getStartOfWeek t) = 0 ∧
    timeOfDayMs (getStartOfWeek t) = 0 ∧
    getStartOfWeek t ≤ t ∧
    getEndOfWeek t = getStartOfWeek t + 6 * dayMs + (dayMs - 1) ∧
    jsGetDay (getEndOfWeek t) = 6 ∧
    timeOfDayMs (getEndOfWeek t) = dayMs - 1 ∧
    t ≤ getEndOfWeek t := by
  simp only [jsGetDay, getEndOfWeek, getStartOfWeek, setTimeOfDay, timeOfDayMs, epochDay,
    dayMs]
  omega

/-- `MeasurementEntry` from `types.ts` (the measurements block itself is
not read by any verified operation and is omitted). -/
structure MeasurementEntry where
  id : String
  date : ℤ
  syncedWeight : Option ℚ := none
deriving DecidableEq, Repr

/-- `handleDeleteFood` from `App.tsx`: `setFoods(prev => prev.filter(f => f.id !== id))`. -/
def handleDeleteFood (id : String) (foods : List FoodEntry) : List FoodEntry :=
  foods.filter (fun f => f.id ≠ id)

/-- `handleDeleteExercise` from `App.tsx`. -/
def handleDeleteExercise (id : String) (exercises : List ExerciseEntry) : List ExerciseEntry :=
  exercises.filter (fun e => e.id ≠ id)

/-- `handleDeleteWeight` from `App.tsx`. -/
def handleDeleteWeight (id : String) (weights : List WeightEntry) : List WeightEntry :=
  weights.filter (fun w => w.id ≠ id)

/-- `handleDeleteMeasurement` from `App.tsx`. -/
def handleDeleteMeasurement (id : String) (measurements : List MeasurementEntry) :
    List MeasurementEntry :=
  measurements.filter (fun m => m.id ≠ id)

lemma filter_ne_id_spec {α : Type} (key : α → String) (id : String) (l : List α) :
    (id ∉ l.map key → l.filter (fun x => key x ≠ id) = l) ∧
    (∀ x, x ∈ l.filter (fun x => key x ≠ id) ↔ x ∈ l ∧ key x ≠ id) ∧
    (l.filter (fun x => key x ≠ id)).Sublist l := by
  refine ⟨fun h => ?_, fun x => ?_, List.filter_sublist l⟩
  · refine List.filter_eq_self.mpr fun a ha => ?_
    have hne : key a ≠ id := fun hEq => h (hEq ▸ List.mem_map_of_mem key ha)
    exact decide_eq_true hne
  · simp [List.mem_filter]

/-- C8: For each of the four entry stores, deleting an id that is absent is
a no-op (the collection is returned unchanged), and in general the result
contains exactly the entries whose id differs, as a sublist (same relative
order) of the original. -/
theorem deleteEntry_spec (id : String) (foods : List FoodEntry)
    (exercises : List ExerciseEntry) (weights : List WeightEntry)
    (measurements : List MeasurementEntry) :
    ((id ∉ foods.map FoodEntry.id → handleDeleteFood id foods = foods) ∧
      (∀ f, f ∈ handleDeleteFood id foods ↔ f ∈ foods ∧ f.id ≠ id) ∧
      (handleDeleteFood id foods).Sublist foods) ∧
    ((id ∉ exercises.map ExerciseEntry.id →
        handleDeleteExercise id exercises = exercises) ∧
      (∀ e, e ∈ handleDeleteExercise id exercises ↔ e ∈ exercises ∧ e.id ≠ id) ∧
      (handleDeleteExercise id exercises).Sublist exercises) ∧
    ((id ∉ weights.map WeightEntry.id → handleDeleteWeight id weights = weights) ∧
      (∀ w, w ∈ handleDeleteWeight id weights ↔ w ∈ weights ∧ w.id ≠ id) ∧
      (handleDeleteWeight id weights).Sublist weights) ∧
    ((id ∉ measurements.map MeasurementEntry.id →
        handleDeleteMeasurement id measurements = measurements) ∧
      (∀ m, m ∈ handleDeleteMeasurement id measurements ↔
          m ∈ measurements ∧ m.id ≠ id) ∧
      (handleDeleteMeasurement id measurements).Sublist measurements) :=
  ⟨filter_ne_id_spec FoodEntry.id id foods,
   filter_ne_id_spec ExerciseEntry.id id exercises,
   filter_ne_id_spec WeightEntry.id id weights,
   filter_ne_id_spec MeasurementEntry.id id measurements⟩

/-- Witness for C8 at concrete stores: deleting the absent id "zzz" leaves a
one-element food store unchanged. -/
theorem deleteEntry_spec_witness :
    handleDeleteFood "zzz"
        [{ id := "1", date := 0, name := "toast", calories := 120 }] =
      [{ id := "1", date := 0, name := "toast", calories := 120 }] :=
  (deleteEntry_spec "zzz"
      [{ id := "1", date := 0, name := "toast", calories := 120 }]
      [] [] []).1.1 (by decide)

/-- Auto-calculation of calories from macros in `FoodModule.tsx`
(the `useEffect` on `[protein, carbs, fat]`).  Each input field is
`none` for the empty string and `some v` when `parseFloat(field) || 0`
yields `v` (a non-numeric string is `some 0`); JS truthiness of the raw
string corresponds to `isSome`.  Returns `some est` when the effect calls
`setCalories(est.toString())`, `none` when it leaves the field alone. -/
def macroAutoCalories (protein carbs fat : Option ℚ) : Option ℤ :=
  if protein.isSome || carbs.isSome || fat.isSome then
    let p := protein.getD 0
    let c := carbs.getD 0
    let f := fat.getD 0
    let estimatedCals := jsRound (p * 4 + c * 4 + f * 9)
    if 0 < estimatedCals then some estimatedCals else none
  else none

/-- The calories field after the macro effect runs, given its prior value. -/
def foodFormCalories (protein carbs fat : Option ℚ) (calories : String) : String :=
  match macroAutoCalories protein carbs fat with
  | some v => toString v
  | none => calories

/-- C10: Whenever at least one macro field is non-empty and
`round(4*protein + 4*carbs + 9*fat)` is positive, the calories field is
overwritten with that rounded value, regardless of what the user had
entered. -/
theorem macroAutoCalc_spec (protein carbs fat : Option ℚ) (calories : String)
    (hsome : protein.isSome || carbs.isSome || fat.isSome)
    (hpos : 0 < jsRound (protein.getD 0 * 4 + carbs.getD 0 * 4 + fat.getD 0 * 9)) :
    foodFormCalories protein carbs fat calories =
      toString (jsRound (protein.getD 0 * 4 + carbs.getD 0 * 4 + fat.getD 0 * 9)) := by
  unfold foodFormCalories macroAutoCalories
  rw [if_pos hsome, if_pos hpos]

/-- Witness for C10: protein 10 g alone (calories previously "123") forces
the calories field to "40". -/
theorem macroAutoCalc_spec_witness :
    foodFormCalories (some 10) none none "123" = "40" := by
  have h40 : jsRound ((some (10:ℚ)).getD 0 * 4 + (none : Option ℚ).getD 0 * 4 +
      (none : Option ℚ).getD 0 * 9) = 40 := by
    norm_num [jsRound]
  have h := macroAutoCalc_spec (some 10) none none "123" (by decide) (by rw [h40]; norm_num)
  rw [h, h40]
  rfl

/-- JS truthiness test for an optional string (`undefined`/`null` and the
empty string are falsy). -/
def jsStrFalsy : Option String → Bool
  | none => true
  | some s => s = ""

/-- JS `a || b` where `a` is an optional string and `b` a string default. -/
def jsOrString (a : Option String) (b : String) : String :=
  match a with
  | none => b
  | some s => if s = "" then b else s

/-- Result schema of `analyzeFood` in `geminiService.ts`. -/
structure AnalyzedFood where
  foodName : String
  calories : ℚ
  macros : Macros
  confidence : String
  servingSize : Option String := none
deriving DecidableEq, Repr

/-- Outcome of the remote generateContent call: the catch-all network/API
failure, or a response whose `text` field may be absent. -/
inductive RemoteOutcome
  | failure
  | success (text : Option String)

/-- `analyzeFood` from `geminiService.ts`, with the remote call and the
JSON parser made explicit parameters: `parseJson` returns `none` exactly
when `JSON.parse` would throw on the given text. -/
def analyzeFood (parseJson : String → Option AnalyzedFood)
    (imageBase64 userDescription : Option String) (remote : RemoteOutcome) :
    Except String AnalyzedFood :=
  if jsStrFalsy imageBase64 && jsStrFalsy userDescription then
    Except.error "Please provide an image or a description."
  else
    match remote with
    | RemoteOutcome.failure => Except.error "Failed to analyze food. Please try again."
    | RemoteOutcome.success text =>
      let jsonText := jsOrString text "\x7b\x7d"
      match parseJson jsonText with
      | some parsedData => Except.ok parsedData
      | none =>
        Except.ok
          { foodName := jsOrString userDescription "Unknown Food"
            calories := 0
            macros := { protein := 0, carbs := 0, fat := 0 }
            confidence := "low"
            servingSize := some "Unknown" }

/-- C7: When the remote call succeeds but its text is not parseable as
JSON, `analyzeFood` does not fail: it returns a degraded result with
confidence "low", calories 0, and the food name defaulted from the description given by the user. -/
theorem analyzeFood_parseFailure_spec (parseJson : String → Option AnalyzedFood)
    (imageBase64 userDescription : Option String) (text : Option String)
    (hvalid : (jsStrFalsy imageBase64 && jsStrFalsy userDescription) = false)
    (hparse : parseJson (jsOrString text "\x7b\x7d") = none) :
    analyzeFood parseJson imageBase64 userDescription (RemoteOutcome.success text) =
      Except.ok
        { foodName := jsOrString userDescription "Unknown Food"
          calories := 0
          macros := { protein := 0, carbs := 0, fat := 0 }
          confidence := "low"
          servingSize := some "Unknown" } := by
  unfold analyzeFood
  rw [hvalid]
  simp only [Bool.false_eq_true, if_false, hparse]

/-- Witness for C7: a never-parsing parser with a description-only request
yields the degraded low-confidence result named after the description. -/
theorem analyzeFood_parseFailure_spec_witness :
    analyzeFood (fun _ => none) none (some "apple pie")
        (RemoteOutcome.success (some "not json")) =
      Except.ok
        { foodName := "apple pie", calories := 0,
          macros := { protein := 0, carbs := 0, fat := 0 },
          confidence := "low", servingSize := some "Unknown" } :=
  (analyzeFood_parseFailure_spec (fun _ => none) none (some "apple pie")
      (some "not json") (by decide) rfl).trans rfl

/-- `stepsTodaySoFar` from `ExerciseModule.tsx`:
`entries.reduce((acc, curr) => acc + (curr.steps || 0), 0)`. -/
def stepsTodaySoFar (entries : List ExerciseEntry) : ℕ :=
  (entries.map (fun e => e.steps.getD 0)).sum

/-- `handleSaveSteps` from `ExerciseModule.tsx`, as a function from the
current entry list and the entered pedometer total to the new entry list
(`onAddEntry` appends).  `newId`/`now` stand for `Date.now()`. -/
def handleSaveSteps (entries : List ExerciseEntry) (dailyStepTotal : ℕ)
    (newId : String) (now : ℤ) : List ExerciseEntry :=
  if dailyStepTotal = 0 then entries
  else
    let delta : ℤ := (dailyStepTotal : ℤ) - (stepsTodaySoFar entries : ℤ)
    if delta ≤ 0 then entries
    else
      let calculatedCalories := jsRound ((delta : ℚ) * 0.04)
      let estimatedMinutes := jsCeil ((delta : ℚ) / 100)
      entries ++
        [{ id := newId, date := now, name := "Steps Sync",
           durationMinutes := (estimatedMinutes : ℚ),
           caloriesBurned := (calculatedCalories : ℚ),
           steps := some delta.toNat }]

/-- C5: If the entered pedometer total does not exceed the already-logged
step sum for the day, no entry is created; if it does, exactly one entry is
appended with steps equal to the delta, calories `round(delta * 0.04)` and
duration `ceil(delta / 100)` minutes. -/
theorem handleSaveSteps_spec (entries : List ExerciseEntry) (dailyStepTotal : ℕ)
    (newId : String) (now : ℤ) :
    (dailyStepTotal ≤ stepsTodaySoFar entries →
      handleSaveSteps entries dailyStepTotal newId now = entries) ∧
    (stepsTodaySoFar entries < dailyStepTotal →
      handleSaveSteps entries dailyStepTotal newId now =
        entries ++
          [{ id := newId, date := now, name := "Steps Sync",
             durationMinutes :=
               ((jsCeil (((dailyStepTotal - stepsTodaySoFar entries : ℕ) : ℚ) / 100) : ℤ) : ℚ),
             caloriesBurned :=
               ((jsRound (((dailyStepTotal - stepsTodaySoFar entries : ℕ) : ℚ) * 0.04) : ℤ) : ℚ),
             steps := some (dailyStepTotal - stepsTodaySoFar entries) }]) := by
  constructor
  · intro hle
    unfold handleSaveSteps
    rcases Nat.eq_zero_or_pos dailyStepTotal with h0 | hpos
    · rw [if_pos h0]
    · rw [if_neg (by omega)]
      rw [if_pos (by omega)]
  · intro hlt
    unfold handleSaveSteps
    rw [if_neg (by omega), if_neg (by omega)]
    have hdelta : ((dailyStepTotal : ℤ) - (stepsTodaySoFar entries : ℤ)) =
        ((dailyStepTotal - stepsTodaySoFar entries : ℕ) : ℤ) := by omega
    rw [hdelta]
    norm_num

/-- Witness for C5 at a concrete store: with 30 steps already logged,
entering 25 is rejected, while entering 100 appends a 70-step entry worth
3 kcal and 1 minute. -/
theorem handleSaveSteps_spec_witness :
    handleSaveSteps
        [{ id := "a", date := 0, name := "Walk", durationMinutes := 10,
           caloriesBurned := 50, steps := some 30 }] 25 "b" 5 =
      [{ id := "a", date := 0, name := "Walk", durationMinutes := 10,
         caloriesBurned := 50, steps := some 30 }] ∧
    handleSaveSteps
        [{ id := "a", date := 0, name := "Walk", durationMinutes := 10,
           caloriesBurned := 50, steps := some 30 }] 100 "b" 5 =
      [{ id := "a", date := 0, name := "Walk", durationMinutes := 10,
         caloriesBurned := 50, steps := some 30 },
       { id := "b", date := 5, name := "Steps Sync", durationMinutes := 1,
         caloriesBurned := 3, steps := some 70 }] :=
  by
  refine ⟨(handleSaveSteps_spec
        [{ id := "a", date := 0, name := "Walk", durationMinutes := 10,
           caloriesBurned := 50, steps := some 30 }] 25 "b" 5).1 (by decide),
      ((handleSaveSteps_spec
        [{ id := "a", date := 0, name := "Walk", durationMinutes := 10,
           caloriesBurned := 50, steps := some 30 }] 100 "b" 5).2
        (by decide)).trans ?_⟩
  have hsteps :
      stepsTodaySoFar
        [{ id := "a", date := 0, name := "Walk", durationMinutes := 10,
           caloriesBurned := 50, steps := some 30 }] = 30 := by decide
  norm_num [hsteps, jsCeil, jsRound, Int.ceil_eq_iff, ExerciseEntry.mk.injEq]

/-- Comparator used by `getWeightForDate`:
`[...weights].sort((a,b) => new Date(a.date).getTime() - new Date(b.date).getTime())`
sorts ascending by date (JS sort is stable; any stable ascending sort
produces the same list). -/
def weightLe (a b : WeightEntry) : Prop := a.date ≤ b.date

instance : DecidableRel weightLe := fun a b => inferInstanceAs (Decidable (a.date ≤ b.date))

instance : IsTotal WeightEntry weightLe := ⟨fun a b => Int.le_total a.date b.date⟩

instance : IsTrans WeightEntry weightLe := ⟨fun _ _ _ hab hbc => le_trans hab hbc⟩

/-- The `for (let w of sorted) ... else break` loop of `getWeightForDate`:
replace the applicable weight while entries are at or before the cutoff,
stop at the first later entry. -/
def weightScan (cutoff : ℤ) (acc : ℚ) : List WeightEntry → ℚ
  | [] => acc
  | w :: rest => if w.date ≤ cutoff then weightScan cutoff w.weight rest else acc

/-- `getWeightForDate` from `App.tsx`: default 70 when no weights exist,
otherwise scan the date-sorted list for the last entry at or before the
end (23:59:59.999) of the target day, starting from the earliest entry. -/
def getWeightForDate (weights : List WeightEntry) (date : ℤ) : ℚ :=
  if weights.isEmpty then 70
  else
    let sorted := List.insertionSort weightLe weights
    weightScan (endOfDayTs date) sorted.headI.weight sorted

lemma weightScan_all_gt (cutoff : ℤ) (acc : ℚ) (l : List WeightEntry)
    (h : ∀ w ∈ l, cutoff < w.date) : weightScan cutoff acc l = acc := by
  cases l with
  | nil => rfl
  | cons w rest =>
    have hw := h w (List.mem_cons_self w rest)
    rw [weightScan, if_neg (by omega)]

lemma weightScan_exists (cutoff : ℤ) (l : List WeightEntry)
    (hs : List.Sorted weightLe l) (acc : ℚ)
    (hex : ∃ w ∈ l, w.date ≤ cutoff) :
    ∃ w ∈ l, weightScan cutoff acc l = w.weight ∧ w.date ≤ cutoff ∧
      ∀ w1 ∈ l, w1.date ≤ cutoff → w1.date ≤ w.date := by
  induction l generalizing acc with
  | nil =>
    rcases hex with ⟨w, hw, _⟩
    exact absurd hw (List.not_mem_nil w)
  | cons w rest ih =>
    rw [List.sorted_cons] at hs
    obtain ⟨hall, hrest⟩ := hs
    by_cases hw : w.date ≤ cutoff
    · rw [weightScan, if_pos hw]
      by_cases hex2 : ∃ w1 ∈ rest, w1.date ≤ cutoff
      · obtain ⟨w2, hw2mem, heq, hle, hmax⟩ := ih hrest w.weight hex2
        refine ⟨w2, List.mem_cons_of_mem w hw2mem, heq, hle, fun w1 hw1 hc => ?_⟩
        rcases List.mem_cons.mp hw1 with h1 | h1
        · exact h1 ▸ hall w2 hw2mem
        · exact hmax w1 h1 hc
      · push_neg at hex2
        rw [weightScan_all_gt cutoff w.weight rest hex2]
        refine ⟨w, List.mem_cons_self w rest, rfl, hw, fun w1 hw1 hc => ?_⟩
        rcases List.mem_cons.mp hw1 with h1 | h1
        · exact h1 ▸ le_refl _
        · exact absurd hc (not_le.mpr (hex2 w1 h1))
    · exfalso
      rcases hex with ⟨w1, hw1, hc⟩
      rcases List.mem_cons.mp hw1 with h1 | h1
      · exact hw (h1 ▸ hc)
      · exact hw (le_trans (hall w1 h1) hc)

/-- C3: The weight used for a target date is the weight of the latest
weight entry dated at or before 23:59:59.999 local time of that day; if
every entry is after that instant it is the weight of the earliest entry; and
with no entries at all it is the fixed default 70 kg. -/
theorem getWeightForDate_spec (weights : List WeightEntry) (date : ℤ) :
    (weights = [] → getWeightForDate weights date = 70) ∧
    ((∃ w ∈ weights, w.date ≤ endOfDayTs date) →
      ∃ w ∈ weights, getWeightForDate weights date = w.weight ∧
        w.date ≤ endOfDayTs date ∧
        ∀ w1 ∈ weights, w1.date ≤ endOfDayTs date → w1.date ≤ w.date) ∧
    (weights ≠ [] → (∀ w ∈ weights, endOfDayTs date < w.date) →
      ∃ w ∈ weights, getWeightForDate weights date = w.weight ∧
        ∀ w1 ∈ weights, w.date ≤ w1.date) := by
  have hperm : (List.insertionSort weightLe weights).Perm weights :=
    List.perm_insertionSort weightLe weights
  have hsort : List.Sorted weightLe (List.insertionSort weightLe weights) :=
    List.sorted_insertionSort weightLe weights
  refine ⟨fun h => by simp [getWeightForDate, h], fun hex => ?_, fun hne hall => ?_⟩
  · have hne : weights ≠ [] := by
      rintro rfl
      rcases hex with ⟨w, hw, _⟩
      exact (List.not_mem_nil w) hw
    rw [getWeightForDate, if_neg (by simpa [List.isEmpty_iff] using hne)]
    have hex2 : ∃ w ∈ List.insertionSort weightLe weights, w.date ≤ endOfDayTs date := by
      rcases hex with ⟨w, hw, hc⟩
      exact ⟨w, hperm.mem_iff.mpr hw, hc⟩
    obtain ⟨w, hwmem, heq, hc, hmax⟩ :=
      weightScan_exists (endOfDayTs date) _ hsort
        (List.insertionSort weightLe weights).headI.weight hex2
    exact ⟨w, hperm.mem_iff.mp hwmem, heq, hc,
      fun w1 h1 hc1 => hmax w1 (hperm.mem_iff.mpr h1) hc1⟩
  · rw [getWeightForDate, if_neg (by simpa [List.isEmpty_iff] using hne)]
    have hall2 : ∀ w ∈ List.insertionSort weightLe weights, endOfDayTs date < w.date :=
      fun w hw => hall w (hperm.mem_iff.mp hw)
    rw [weightScan_all_gt _ _ _ hall2]
    rcases hs : List.insertionSort weightLe weights with _ | ⟨w0, rest⟩
    · exact absurd (List.Perm.eq_nil (hs ▸ hperm.symm)) hne
    · have hmem0 : w0 ∈ List.insertionSort weightLe weights := by
        rw [hs]; exact List.mem_cons_self w0 rest
      have hsort2 := hsort
      rw [hs, List.sorted_cons] at hsort2
      refine ⟨w0, hperm.mem_iff.mp hmem0, rfl, fun w1 h1 => ?_⟩
      have h1s : w1 ∈ List.insertionSort weightLe weights := hperm.mem_iff.mpr h1
      rw [hs] at h1s
      rcases List.mem_cons.mp h1s with h2 | h2
      · exact h2 ▸ le_refl _
      · exact hsort2.1 w1 h2

/-- Witness for C3: with entries dated 0 and 5 and target day 0
(cutoff 86399999), the resolved weight is 65, the weight of the latest
qualifying entry. -/
theorem getWeightForDate_spec_witness :
    ∃ w ∈ [({ id := "a", date := 0, weight := 60 } : WeightEntry),
           { id := "b", date := 5, weight := 65 }],
      getWeightForDate
          [{ id := "a", date := 0, weight := 60 }, { id := "b", date := 5, weight := 65 }]
          10 = w.weight ∧
        w.date ≤ endOfDayTs 10 ∧
        ∀ w1 ∈ [({ id := "a", date := 0, weight := 60 } : WeightEntry),
                { id := "b", date := 5, weight := 65 }],
          w1.date ≤ endOfDayTs 10 → w1.date ≤ w.date :=
  (getWeightForDate_spec
      [{ id := "a", date := 0, weight := 60 }, { id := "b", date := 5, weight := 65 }]
      10).2.1
    ⟨{ id := "b", date := 5, weight := 65 }, by decide, by decide⟩

/-- View mode of the stats charts (day, week or month). -/
inductive ViewMode
  | day
  | week
  | month
deriving DecidableEq, Repr

/-- One chart bucket of `getAggregatedData`: the locale-date-string key is
the epoch day in this model, `value` the accumulated sum. -/
structure Bucket where
  day : ℤ
  value : ℚ
deriving DecidableEq, Repr

/-- Number of iterations of the bucket-seeding loop
`while (curr <= end) ... curr.setDate(curr.getDate() + 1)`: the number of
naturals `k` with `start + k * dayMs ≤ e`. -/
def bucketInitCount (start e : ℤ) : ℕ :=
  if start ≤ e then ((e - start) / dayMs).toNat + 1 else 0

/-- The pre-seeded buckets: one per loop iteration, keyed by the calendar
day of `start + k` days, with value 0. -/
def initBuckets (start e : ℤ) : List Bucket :=
  (List.range (bucketInitCount start e)).map
    (fun (k : ℕ) => { day := epochDay (start + (k : ℤ) * dayMs), value := 0 })

/-- The per-entry body of `data.forEach` in `getAggregatedData`: entries in
`[start, e]` add their value to the bucket keyed by their calendar day (a
missing key leaves every bucket unchanged, matching `map.has`). -/
def addEntryToBuckets (start e d : ℤ) (v : ℚ) (buckets : List Bucket) : List Bucket :=
  if start ≤ d ∧ d ≤ e then
    buckets.map (fun b => if b.day = epochDay d then { b with value := b.value + v } else b)
  else buckets

/-- `getAggregatedData` from `geminiService.ts`, generic over the entry
type with an explicit value selector (the `valueKey` field-or-function parameter of the source); returns `[]` in day view. -/
def getAggregatedData {α : Type} (data : List α) (dateOf : α → ℤ) (valueOf : α → ℚ)
    (start e : ℤ) (viewMode : ViewMode) : List Bucket :=
  if viewMode = ViewMode.day then []
  else
    data.foldl (fun bs x => addEntryToBuckets start e (dateOf x) (valueOf x) bs)
      (initBuckets start e)

lemma initBuckets_eq (start e : ℤ) :
    initBuckets start e =
      (List.range (bucketInitCount start e)).map
        (fun (k : ℕ) => { day := epochDay start + (k : ℤ), value := 0 }) := by
  unfold initBuckets
  refine List.map_congr_left fun k _ => ?_
  have hday : epochDay (start + (k : ℤ) * dayMs) = epochDay start + (k : ℤ) := by
    unfold epochDay dayMs
    omega
  rw [hday]

lemma aggFold_closed {α : Type} (dateOf : α → ℤ) (valueOf : α → ℚ) (start e : ℤ)
    (N : ℕ) (dayAt : ℕ → ℤ) (data : List α) (S : ℕ → ℚ) :
    data.foldl (fun bs x => addEntryToBuckets start e (dateOf x) (valueOf x) bs)
        ((List.range N).map (fun k => { day := dayAt k, value := S k })) =
      (List.range N).map (fun k =>
        { day := dayAt k,
          value := S k +
            ((data.filter (fun x =>
                decide (start ≤ dateOf x) && decide (dateOf x ≤ e) &&
                  decide (epochDay (dateOf x) = dayAt k))).map valueOf).sum }) := by
  induction data generalizing S with
  | nil => simp
  | cons x xs ih =>
    rw [List.foldl_cons]
    by_cases hin : start ≤ dateOf x ∧ dateOf x ≤ e
    · have hstep :
          addEntryToBuckets start e (dateOf x) (valueOf x)
              ((List.range N).map (fun k => { day := dayAt k, value := S k })) =
            (List.range N).map (fun k =>
              { day := dayAt k,
                value := S k +
                  (if epochDay (dateOf x) = dayAt k then valueOf x else 0) }) := by
        unfold addEntryToBuckets
        rw [if_pos hin, List.map_map]
        refine List.map_congr_left fun k _ => ?_
        by_cases hd : dayAt k = epochDay (dateOf x)
        · simp [Function.comp, hd]
        · have hd2 : ¬ epochDay (dateOf x) = dayAt k := fun h => hd h.symm
          simp [Function.comp, hd, hd2]
      rw [hstep, ih]
      refine List.map_congr_left fun k _ => ?_
      have hfil : (List.filter (fun x =>
            decide (start ≤ dateOf x) && decide (dateOf x ≤ e) &&
              decide (epochDay (dateOf x) = dayAt k)) (x :: xs)) =
          if epochDay (dateOf x) = dayAt k then
            x :: List.filter (fun x =>
              decide (start ≤ dateOf x) && decide (dateOf x ≤ e) &&
                decide (epochDay (dateOf x) = dayAt k)) xs
          else
            List.filter (fun x =>
              decide (start ≤ dateOf x) && decide (dateOf x ≤ e) &&
                decide (epochDay (dateOf x) = dayAt k)) xs := by
        rw [List.filter_cons]
        by_cases hd : epochDay (dateOf x) = dayAt k <;>
          simp [hin.1, hin.2, hd]
      rw [hfil]
      by_cases hd : epochDay (dateOf x) = dayAt k <;> simp [hd]
      ring
    · have hstep :
          addEntryToBuckets start e (dateOf x) (valueOf x)
              ((List.range N).map (fun k => { day := dayAt k, value := S k })) =
            (List.range N).map (fun k => { day := dayAt k, value := S k }) := by
        unfold addEntryToBuckets
        rw [if_neg hin]
      rw [hstep, ih]
      refine List.map_congr_left fun k _ => ?_
      have hfil : (List.filter (fun x =>
            decide (start ≤ dateOf x) && decide (dateOf x ≤ e) &&
              decide (epochDay (dateOf x) = dayAt k)) (x :: xs)) =
          List.filter (fun x =>
            decide (start ≤ dateOf x) && decide (dateOf x ≤ e) &&
              decide (epochDay (dateOf x) = dayAt k)) xs := by
        rw [List.filter_cons]
        rcases not_and_or.mp hin with h | h <;> simp [h]
      rw [hfil]

/-- C4: For any entry list and midnight-aligned range `[start, e]` with
`start ≤ e`, day-bucketed aggregation (week or month view) returns exactly
`(e - start).days + 1` buckets — one per calendar day of the range in
chronological order, pre-seeded to 0 — where the value of each bucket is the sum
of the selected value over in-range entries whose calendar day matches, so
out-of-range entries contribute to no bucket. -/
theorem getAggregatedData_spec {α : Type} (data : List α) (dateOf : α → ℤ)
    (valueOf : α → ℚ) (start e : ℤ) (viewMode : ViewMode)
    (hse : start ≤ e) (hvm : viewMode ≠ ViewMode.day) (hmid : start % dayMs = 0) :
    getAggregatedData data dateOf valueOf start e viewMode =
      (List.range (((e - start) / dayMs).toNat + 1)).map
        (fun (k : ℕ) =>
          { day := epochDay start + (k : ℤ),
            value := ((data.filter (fun x =>
                decide (start ≤ dateOf x) && decide (dateOf x ≤ e) &&
                  decide (epochDay (dateOf x) = epochDay start + (k : ℤ)))).map
              valueOf).sum }) ∧
    (getAggregatedData data dateOf valueOf start e viewMode).length =
      (epochDay e - epochDay start).toNat + 1 := by
  have hcount : bucketInitCount start e = ((e - start) / dayMs).toNat + 1 := by
    unfold bucketInitCount
    rw [if_pos hse]
  have hfold := aggFold_closed dateOf valueOf start e (((e - start) / dayMs).toNat + 1)
    (fun (k : ℕ) => epochDay start + (k : ℤ)) data (fun _ => (0 : ℚ))
  simp only [zero_add] at hfold
  have hclosed : getAggregatedData data dateOf valueOf start e viewMode =
      (List.range (((e - start) / dayMs).toNat + 1)).map
        (fun (k : ℕ) =>
          { day := epochDay start + (k : ℤ),
            value := ((data.filter (fun x =>
                decide (start ≤ dateOf x) && decide (dateOf x ≤ e) &&
                  decide (epochDay (dateOf x) = epochDay start + (k : ℤ)))).map
              valueOf).sum }) := by
    rw [getAggregatedData, if_neg hvm, initBuckets_eq, hcount, hfold]
  refine ⟨hclosed, ?_⟩
  rw [hclosed, List.length_map, List.length_range]
  have hd : (0:ℤ) < dayMs := by unfold dayMs; omega
  simp only [epochDay, dayMs] at hmid ⊢
  omega

/-- Witness for C4: aggregating two food entries (one inside the two-day
range, one after it) in week view yields two buckets. -/
theorem getAggregatedData_spec_witness :
    (getAggregatedData
        [({ id := "f1", date := 1000, name := "x", calories := 5 } : FoodEntry),
         { id := "f2", date := 2 * 86400000 + 5, name := "y", calories := 7 }]
        FoodEntry.date FoodEntry.calories 0 172799999 ViewMode.week).length =
      (epochDay 172799999 - epochDay 0).toNat + 1 :=
  (getAggregatedData_spec
      [({ id := "f1", date := 1000, name := "x", calories := 5 } : FoodEntry),
       { id := "f2", date := 2 * 86400000 + 5, name := "y", calories := 7 }]
      FoodEntry.date FoodEntry.calories 0 172799999 ViewMode.week
      (by decide) (by decide) (by decide)).2

/-- `DailyStats` from `types.ts` (optional macro totals omitted; no
verified operation writes them). -/
structure DailyStats where
  date : ℤ
  intake : ℚ
  burned : ℚ
  bmr : ℚ
  net : ℚ
  exerciseMinutes : ℚ
deriving DecidableEq, Repr

/-- Sum of the calories of the foods whose local calendar day is `d`. -/
def sumFoodCalories (foods : List FoodEntry) (d : ℤ) : ℚ :=
  ((foods.filter (fun f => epochDay f.date = d)).map FoodEntry.calories).sum

/-- Sum of the caloriesBurned of the exercises whose local calendar day is `d`. -/
def sumExerciseBurned (exercises : List ExerciseEntry) (d : ℤ) : ℚ :=
  ((exercises.filter (fun e => epochDay e.date = d)).map ExerciseEntry.caloriesBurned).sum

/-- The `dashboardStats` record computed in `App.tsx` for the currently
selected dashboard date: same-day food/exercise filters (`toLocaleDateString`
equality), BMR from the date-resolved weight, and
`net = intake - (bmr + burned)`. -/
def dashboardStats (profile : UserProfile) (foods : List FoodEntry)
    (exercises : List ExerciseEntry) (weights : List WeightEntry) (date : ℤ) : DailyStats :=
  let dashboardFoods := foods.filter (fun f => epochDay f.date = epochDay date)
  let dashboardExercises := exercises.filter (fun e => epochDay e.date = epochDay date)
  let dashboardBMR := calculateBMR profile (getWeightForDate weights date)
  let dashboardIntake := (dashboardFoods.map FoodEntry.calories).sum
  let dashboardBurned := (dashboardExercises.map ExerciseEntry.caloriesBurned).sum
  let dashboardExerciseMins := (dashboardExercises.map ExerciseEntry.durationMinutes).sum
  { date := date, intake := dashboardIntake, burned := dashboardBurned,
    bmr := dashboardBMR,
    net := dashboardIntake - (dashboardBMR + dashboardBurned),
    exerciseMinutes := dashboardExerciseMins }

/-- The `if (!map.has(d)) map.set(d, default); map.get(d).field += x`
pattern of the `statsHistory` memo, on an insertion-ordered association
list (JS `Map` preserves insertion order and has unique keys). -/
def statsUpsert (key : ℤ) (dflt : DailyStats) (upd : DailyStats → DailyStats)
    (m : List (ℤ × DailyStats)) : List (ℤ × DailyStats) :=
  if (m.lookup key).isSome then
    m.map (fun kv => if kv.1 = key then (kv.1, upd kv.2) else kv)
  else m ++ [(key, upd dflt)]

/-- The `foods.forEach` body of `statsHistory`. -/
def statsAddFood (todayBMR : ℚ) (m : List (ℤ × DailyStats)) (f : FoodEntry) :
    List (ℤ × DailyStats) :=
  statsUpsert (epochDay f.date)
    { date := f.date, intake := 0, burned := 0, bmr := todayBMR, net := 0,
      exerciseMinutes := 0 }
    (fun s => { s with intake := s.intake + f.calories }) m

/-- The `exercises.forEach` body of `statsHistory`. -/
def statsAddExercise (todayBMR : ℚ) (m : List (ℤ × DailyStats)) (e : ExerciseEntry) :
    List (ℤ × DailyStats) :=
  statsUpsert (epochDay e.date)
    { date := e.date, intake := 0, burned := 0, bmr := todayBMR, net := 0,
      exerciseMinutes := 0 }
    (fun s => { s with burned := s.burned + e.caloriesBurned,
                       exerciseMinutes := s.exerciseMinutes + e.durationMinutes }) m

/-- `statsHistory` from `App.tsx`: group foods then exercises by calendar
day, then recompute `net := intake - (bmr + burned)` on every record.  The
source returns `Array.from(map.values())`; the day keys are kept here so
that per-day sums can be stated, the values list is the `Prod.snd` image. -/
def statsHistory (foods : List FoodEntry) (exercises : List ExerciseEntry)
    (todayBMR : ℚ) : List (ℤ × DailyStats) :=
  ((exercises.foldl (statsAddExercise todayBMR)
      (foods.foldl (statsAddFood todayBMR) [])).map
    (fun kv => (kv.1, { kv.2 with net := kv.2.intake - (kv.2.bmr + kv.2.burned) })))

lemma lookup_map_update {κ β : Type} [BEq κ] [LawfulBEq κ] [DecidableEq κ]
    (m : List (κ × β)) (key : κ) (g : β → β) (k : κ) :
    (m.map (fun kv => if kv.1 = key then (kv.1, g kv.2) else kv)).lookup k =
      if k = key then (m.lookup key).map g else m.lookup k := by
  induction m with
  | nil => by_cases hk : k = key <;> simp [hk]
  | cons a t ih =>
    obtain ⟨a1, b1⟩ := a
    rw [List.map_cons]
    show List.lookup k ((if a1 = key then (a1, g b1) else (a1, b1)) :: _) = _
    by_cases ha : a1 = key
    · rw [if_pos ha]
      subst ha
      by_cases hk : k = a1
      · subst hk
        simp [List.lookup]
      · have hb : (k == a1) = false := by simp [hk]
        simp [List.lookup, hb, hk, ih]
    · rw [if_neg ha]
      by_cases hk : k = a1
      · subst hk
        have hk2 : ¬ k = key := fun h => ha h
        simp [List.lookup, hk2]
      · have hb : (k == a1) = false := by simp [hk]
        have hb2 : (key == a1) = false := by
          simp only [beq_eq_false_iff_ne, ne_eq]
          exact fun h => ha h.symm
        simp [List.lookup, hb, hb2, ih]

lemma lookup_append_single {κ β : Type} [BEq κ] [LawfulBEq κ] [DecidableEq κ]
    (m : List (κ × β)) (key : κ) (v : β) (k : κ) :
    (m ++ [(key, v)]).lookup k =
      ((m.lookup k).or (if k = key then some v else none)) := by
  induction m with
  | nil =>
    by_cases hk : k = key
    · simp [List.lookup, hk]
    · have hb : (k == key) = false := by simp [hk]
      simp [List.lookup, hk, hb]
  | cons a t ih =>
    obtain ⟨a1, b1⟩ := a
    by_cases hk : k = a1
    · subst hk
      simp [List.lookup]
    · have hb : (k == a1) = false := by simp [hk]
      simp [List.lookup, hb, ih]

lemma lookup_none_iff {κ β : Type} [BEq κ] [LawfulBEq κ]
    (m : List (κ × β)) (k : κ) :
    m.lookup k = none ↔ k ∉ m.map Prod.fst := by
  induction m with
  | nil => simp [List.lookup]
  | cons a t ih =>
    by_cases hk : k = a.1
    · simp [List.lookup, hk]
    · have : (k == a.1) = false := by simp [hk]
      simp [List.lookup, this, ih, hk]

lemma mem_lookup_of_nodup {κ β : Type} [BEq κ] [LawfulBEq κ]
    (m : List (κ × β)) (hnd : (m.map Prod.fst).Nodup) (k : κ) (v : β)
    (hm : (k, v) ∈ m) : m.lookup k = some v := by
  induction m with
  | nil => exact absurd hm (List.not_mem_nil _)
  | cons a t ih =>
    rw [List.map_cons, List.nodup_cons] at hnd
    rcases List.mem_cons.mp hm with h1 | h1
    · rw [← h1]
      simp [List.lookup]
    · have hk : ¬ k = a.1 := by
        intro h
        exact hnd.1 (h ▸ (List.mem_map_of_mem Prod.fst h1))
      have : (k == a.1) = false := by simp [hk]
      simp [List.lookup, this, ih hnd.2 h1]

lemma lookup_statsUpsert (key : ℤ) (dflt : DailyStats) (upd : DailyStats → DailyStats)
    (m : List (ℤ × DailyStats)) (k : ℤ) :
    (statsUpsert key dflt upd m).lookup k =
      if k = key then some (upd ((m.lookup key).getD dflt)) else m.lookup k := by
  unfold statsUpsert
  by_cases h : (m.lookup key).isSome
  · rw [if_pos h, lookup_map_update]
    by_cases hk : k = key
    · obtain ⟨s, hs⟩ := Option.isSome_iff_exists.mp h
      simp [hk, hs]
    · simp [hk]
  · rw [if_neg h, lookup_append_single]
    have hnone : m.lookup key = none := Option.not_isSome_iff_eq_none.mp h
    by_cases hk : k = key
    · subst hk
      simp [hnone]
    · cases hm : m.lookup k <;> simp [hm, hk]

lemma statsUpsert_keys_nodup (key : ℤ) (dflt : DailyStats)
    (upd : DailyStats → DailyStats) (m : List (ℤ × DailyStats))
    (h : (m.map Prod.fst).Nodup) :
    ((statsUpsert key dflt upd m).map Prod.fst).Nodup := by
  unfold statsUpsert
  by_cases h2 : (m.lookup key).isSome
  · rw [if_pos h2]
    have hkeys : (m.map (fun kv => if kv.1 = key then (kv.1, upd kv.2) else kv)).map
        Prod.fst = m.map Prod.fst := by
      rw [List.map_map]
      refine List.map_congr_left fun kv _ => ?_
      by_cases hk : kv.1 = key <;> simp [hk]
    rw [hkeys]
    exact h
  · rw [if_neg h2, List.map_append]
    have hnotin : key ∉ m.map Prod.fst :=
      (lookup_none_iff m key).mp (Option.not_isSome_iff_eq_none.mp h2)
    simp [List.nodup_append, h, hnotin]

/-- Intake recorded for day `d` in a stats map (0 when the day is absent). -/
def intakeAt (m : List (ℤ × DailyStats)) (d : ℤ) : ℚ :=
  ((m.lookup d).map DailyStats.intake).getD 0

/-- Burned calories recorded for day `d` in a stats map. -/
def burnedAt (m : List (ℤ × DailyStats)) (d : ℤ) : ℚ :=
  ((m.lookup d).map DailyStats.burned).getD 0

lemma intakeAt_statsAddFood (todayBMR : ℚ) (m : List (ℤ × DailyStats)) (f : FoodEntry)
    (d : ℤ) :
    intakeAt (statsAddFood todayBMR m f) d =
      intakeAt m d + (if epochDay f.date = d then f.calories else 0) := by
  unfold statsAddFood intakeAt
  rw [lookup_statsUpsert]
  by_cases hk : d = epochDay f.date
  · subst hk
    cases hm : m.lookup (epochDay f.date) <;> simp [hm]
  · have hk2 : ¬ epochDay f.date = d := fun h => hk h.symm
    simp [hk, hk2]

lemma intakeAt_statsAddExercise (todayBMR : ℚ) (m : List (ℤ × DailyStats))
    (e : ExerciseEntry) (d : ℤ) :
    intakeAt (statsAddExercise todayBMR m e) d = intakeAt m d := by
  unfold statsAddExercise intakeAt
  rw [lookup_statsUpsert]
  by_cases hk : d = epochDay e.date
  · subst hk
    cases hm : m.lookup (epochDay e.date) <;> simp [hm]
  · simp [hk]

lemma burnedAt_statsAddFood (todayBMR : ℚ) (m : List (ℤ × DailyStats)) (f : FoodEntry)
    (d : ℤ) :
    burnedAt (statsAddFood todayBMR m f) d = burnedAt m d := by
  unfold statsAddFood burnedAt
  rw [lookup_statsUpsert]
  by_cases hk : d = epochDay f.date
  · subst hk
    cases hm : m.lookup (epochDay f.date) <;> simp [hm]
  · simp [hk]

lemma burnedAt_statsAddExercise (todayBMR : ℚ) (m : List (ℤ × DailyStats))
    (e : ExerciseEntry) (d : ℤ) :
    burnedAt (statsAddExercise todayBMR m e) d =
      burnedAt m d + (if epochDay e.date = d then e.caloriesBurned else 0) := by
  unfold statsAddExercise burnedAt
  rw [lookup_statsUpsert]
  by_cases hk : d = epochDay e.date
  · subst hk
    cases hm : m.lookup (epochDay e.date) <;> simp [hm]
  · have hk2 : ¬ epochDay e.date = d := fun h => hk h.symm
    simp [hk, hk2]

lemma intakeAt_foldFood (todayBMR : ℚ) (foods : List FoodEntry)
    (m : List (ℤ × DailyStats)) (d : ℤ) :
    intakeAt (foods.foldl (statsAddFood todayBMR) m) d =
      intakeAt m d + sumFoodCalories foods d := by
  induction foods generalizing m with
  | nil => simp [sumFoodCalories]
  | cons f fs ih =>
    rw [List.foldl_cons, ih, intakeAt_statsAddFood]
    have hsum : sumFoodCalories (f :: fs) d =
        (if epochDay f.date = d then f.calories else 0) + sumFoodCalories fs d := by
      unfold sumFoodCalories
      rw [List.filter_cons]
      by_cases hd : epochDay f.date = d <;> simp [hd]
    rw [hsum]
    ring

lemma intakeAt_foldExercise (todayBMR : ℚ) (exercises : List ExerciseEntry)
    (m : List (ℤ × DailyStats)) (d : ℤ) :
    intakeAt (exercises.foldl (statsAddExercise todayBMR) m) d = intakeAt m d := by
  induction exercises generalizing m with
  | nil => rfl
  | cons e es ih => rw [List.foldl_cons, ih, intakeAt_statsAddExercise]

lemma burnedAt_foldFood (todayBMR : ℚ) (foods : List FoodEntry)
    (m : List (ℤ × DailyStats)) (d : ℤ) :
    burnedAt (foods.foldl (statsAddFood todayBMR) m) d = burnedAt m d := by
  induction foods generalizing m with
  | nil => rfl
  | cons f fs ih => rw [List.foldl_cons, ih, burnedAt_statsAddFood]

lemma burnedAt_foldExercise (todayBMR : ℚ) (exercises : List ExerciseEntry)
    (m : List (ℤ × DailyStats)) (d : ℤ) :
    burnedAt (exercises.foldl (statsAddExercise todayBMR) m) d =
      burnedAt m d + sumExerciseBurned exercises d := by
  induction exercises generalizing m with
  | nil => simp [sumExerciseBurned]
  | cons e es ih =>
    rw [List.foldl_cons, ih, burnedAt_statsAddExercise]
    have hsum : sumExerciseBurned (e :: es) d =
        (if epochDay e.date = d then e.caloriesBurned else 0) +
          sumExerciseBurned es d := by
      unfold sumExerciseBurned
      rw [List.filter_cons]
      by_cases hd : epochDay e.date = d <;> simp [hd]
    rw [hsum]
    ring

lemma keys_nodup_foldFood (todayBMR : ℚ) (foods : List FoodEntry)
    (m : List (ℤ × DailyStats)) (h : (m.map Prod.fst).Nodup) :
    ((foods.foldl (statsAddFood todayBMR) m).map Prod.fst).Nodup := by
  induction foods generalizing m with
  | nil => exact h
  | cons f fs ih =>
    rw [List.foldl_cons]
    exact ih _ (statsUpsert_keys_nodup _ _ _ m h)

lemma keys_nodup_foldExercise (todayBMR : ℚ) (exercises : List ExerciseEntry)
    (m : List (ℤ × DailyStats)) (h : (m.map Prod.fst).Nodup) :
    ((exercises.foldl (statsAddExercise todayBMR) m).map Prod.fst).Nodup := by
  induction exercises generalizing m with
  | nil => exact h
  | cons e es ih =>
    rw [List.foldl_cons]
    exact ih _ (statsUpsert_keys_nodup _ _ _ m h)

/-- C2: Every `DailyStats` record the app derives satisfies
`net = intake - (bmr + burned)` with `intake` the sum of the food calories of that day and `burned` the
sum of the exercise caloriesBurned of that day: both
the dashboard stats of any chosen date and every entry of the derived
stats history.  (The empty-history fallback pushes `dashboardStats`, which
the first conjunct covers.) -/
theorem dailyStatsNet_spec :
    (∀ (profile : UserProfile) (foods : List FoodEntry)
        (exercises : List ExerciseEntry) (weights : List WeightEntry) (date : ℤ),
      (dashboardStats profile foods exercises weights date).net =
        (dashboardStats profile foods exercises weights date).intake -
          ((dashboardStats profile foods exercises weights date).bmr +
            (dashboardStats profile foods exercises weights date).burned) ∧
      (dashboardStats profile foods exercises weights date).intake =
        sumFoodCalories foods (epochDay date) ∧
      (dashboardStats profile foods exercises weights date).burned =
        sumExerciseBurned exercises (epochDay date)) ∧
    (∀ (foods : List FoodEntry) (exercises : List ExerciseEntry) (todayBMR : ℚ)
        (d : ℤ) (s : DailyStats),
      (d, s) ∈ statsHistory foods exercises todayBMR →
        s.net = s.intake - (s.bmr + s.burned) ∧
        s.intake = sumFoodCalories foods d ∧
        s.burned = sumExerciseBurned exercises d) := by
  constructor
  · intro profile foods exercises weights date
    exact ⟨rfl, rfl, rfl⟩
  · intro foods exercises todayBMR d s hmem
    unfold statsHistory at hmem
    obtain ⟨kv, hkvmem, hkv⟩ := List.mem_map.mp hmem
    rw [Prod.mk.injEq] at hkv
    obtain ⟨hd, hs⟩ := hkv
    have hnd : ((exercises.foldl (statsAddExercise todayBMR)
        (foods.foldl (statsAddFood todayBMR) [])).map Prod.fst).Nodup :=
      keys_nodup_foldExercise todayBMR exercises _
        (keys_nodup_foldFood todayBMR foods [] (by simp))
    have hkvmem2 : (kv.1, kv.2) ∈ exercises.foldl (statsAddExercise todayBMR)
        (foods.foldl (statsAddFood todayBMR) []) := by
      rw [Prod.mk.eta]
      exact hkvmem
    have hlook : (exercises.foldl (statsAddExercise todayBMR)
        (foods.foldl (statsAddFood todayBMR) [])).lookup kv.1 = some kv.2 :=
      mem_lookup_of_nodup _ hnd kv.1 kv.2 hkvmem2
    have hintake : kv.2.intake = sumFoodCalories foods kv.1 := by
      have h1 : intakeAt (exercises.foldl (statsAddExercise todayBMR)
          (foods.foldl (statsAddFood todayBMR) [])) kv.1 = kv.2.intake := by
        unfold intakeAt
        rw [hlook]
        rfl
      rw [intakeAt_foldExercise, intakeAt_foldFood] at h1
      have h0 : intakeAt [] kv.1 = 0 := rfl
      rw [h0, zero_add] at h1
      exact h1.symm
    have hburned : kv.2.burned = sumExerciseBurned exercises kv.1 := by
      have h1 : burnedAt (exercises.foldl (statsAddExercise todayBMR)
          (foods.foldl (statsAddFood todayBMR) [])) kv.1 = kv.2.burned := by
        unfold burnedAt
        rw [hlook]
        rfl
      rw [burnedAt_foldExercise, burnedAt_foldFood] at h1
      have h0 : burnedAt [] kv.1 = 0 := rfl
      rw [h0, zero_add] at h1
      exact h1.symm
    subst hd
    refine ⟨?_, ?_, ?_⟩
    · rw [← hs]
    · rw [← hs]
      exact hintake
    · rw [← hs]
      exact hburned

/-- Witness for C2 at concrete data: the single history record for a
10-kcal food on day 0 with BMR 2 has net 8 = 10 - (2 + 0), intake the
day-0 food sum and burned the day-0 exercise sum. -/
theorem dailyStatsNet_spec_witness :
    ({ date := 1000, intake := 10, burned := 0, bmr := 2, net := 8,
       exerciseMinutes := 0 } : DailyStats).net =
      ({ date := 1000, intake := 10, burned := 0, bmr := 2, net := 8,
         exerciseMinutes := 0 } : DailyStats).intake -
        (({ date := 1000, intake := 10, burned := 0, bmr := 2, net := 8,
            exerciseMinutes := 0 } : DailyStats).bmr +
          ({ date := 1000, intake := 10, burned := 0, bmr := 2, net := 8,
             exerciseMinutes := 0 } : DailyStats).burned) ∧
    ({ date := 1000, intake := 10, burned := 0, bmr := 2, net := 8,
       exerciseMinutes := 0 } : DailyStats).intake =
      sumFoodCalories [{ id := "f", date := 1000, name := "x", calories := 10 }] 0 ∧
    ({ date := 1000, intake := 10, burned := 0, bmr := 2, net := 8,
       exerciseMinutes := 0 } : DailyStats).burned =
      sumExerciseBurned [] 0 :=
  dailyStatsNet_spec.2 [{ id := "f", date := 1000, name := "x", calories := 10 }] []
    2 0 { date := 1000, intake := 10, burned := 0, bmr := 2, net := 8,
          exerciseMinutes := 0 }
    (by norm_num [statsHistory, statsAddFood, statsUpsert, List.lookup, epochDay, dayMs])

/-- A JSON value of the parsed backup object: a string, or anything else
(the import only restores string-typed values). -/
inductive JsonVal
  | jstr (s : String)
  | jother
deriving DecidableEq, Repr

/-- localStorage model: insertion-ordered association list of key/value
strings with unique keys. -/
abbrev Storage := List (String × String)

/-- `localStorage.setItem`: overwrite in place when the key exists,
append otherwise. -/
def setItem (store : Storage) (key value : String) : Storage :=
  if (store.lookup key).isSome then
    store.map (fun kv => if kv.1 = key then (kv.1, value) else kv)
  else store ++ [(key, value)]

/-- The startsWith vs_ namespaced-key test of export/import
(spelled on the character list so it evaluates by `decide`). -/
def isNamespaced (key : String) : Bool := "vs_".data.isPrefixOf key.data

/-- One iteration of the restore loop of `handleImport` in
`ProfileSettings.tsx`:
restore a key only when it is namespaced and its backup value is a
string, via localStorage.setItem. -/
def importStep (st : Storage) (kv : String × JsonVal) : Storage :=
  match kv with
  | (key, JsonVal.jstr s) => if isNamespaced key then setItem st key s else st
  | (_, JsonVal.jother) => st

/-- `handleImport` from `ProfileSettings.tsx` (the live importer the App
renders), acting on storage once the user has confirmed: remove every
existing `vs_`-prefixed key (`keysToRemove.forEach(k => localStorage.removeItem(k))`),
then restore the namespaced string values of the file via `setItem`. -/
def handleImport (store : Storage) (backupData : List (String × JsonVal)) : Storage :=
  let cleared := store.filter (fun kv => !(isNamespaced kv.1))
  backupData.foldl importStep cleared

lemma lookup_setItem (store : Storage) (key v k : String) :
    (setItem store key v).lookup k = if k = key then some v else store.lookup k := by
  unfold setItem
  by_cases h : (store.lookup key).isSome
  · rw [if_pos h]
    have hmap := lookup_map_update store key (fun _ => v) k
    simp only [] at hmap
    rw [hmap]
    by_cases hk : k = key
    · obtain ⟨w, hw⟩ := Option.isSome_iff_exists.mp h
      simp [hk, hw]
    · simp [hk]
  · rw [if_neg h, lookup_append_single]
    have hnone : store.lookup key = none := Option.not_isSome_iff_eq_none.mp h
    by_cases hk : k = key
    · subst hk
      simp [hnone]
    · cases hm : store.lookup k <;> simp [hm, hk]

lemma importFold_untouched (k : String) :
    ∀ (backup : List (String × JsonVal)) (st : Storage),
      k ∉ backup.map Prod.fst →
      (backup.foldl importStep st).lookup k = st.lookup k := by
  intro backup
  induction backup with
  | nil => intro st _; rfl
  | cons kv rest ih =>
    intro st hk
    have hk1 : k ∉ rest.map Prod.fst := fun h => hk (List.mem_cons_of_mem _ h)
    have hkne : k ≠ kv.1 :=
      fun h => hk (h ▸ List.mem_map_of_mem Prod.fst (List.mem_cons_self kv rest))
    rw [List.foldl_cons, ih _ hk1]
    obtain ⟨key, val⟩ := kv
    cases val with
    | jstr s =>
      show (if isNamespaced key then setItem st key s else st).lookup k = st.lookup k
      by_cases hns : isNamespaced key
      · rw [if_pos hns, lookup_setItem, if_neg hkne]
      · rw [if_neg hns]
    | jother => rfl

lemma importFold_nonvs (k : String) (hk : isNamespaced k = false) :
    ∀ (backup : List (String × JsonVal)) (st : Storage),
      (backup.foldl importStep st).lookup k = st.lookup k := by
  intro backup
  induction backup with
  | nil => intro st; rfl
  | cons kv rest ih =>
    intro st
    rw [List.foldl_cons, ih]
    obtain ⟨key, val⟩ := kv
    cases val with
    | jstr s =>
      show (if isNamespaced key then setItem st key s else st).lookup k = st.lookup k
      by_cases hns : isNamespaced key
      · have hkne : k ≠ key := fun h => by rw [h, hns] at hk; exact Bool.noConfusion hk
        rw [if_pos hns, lookup_setItem, if_neg hkne]
      · rw [if_neg hns]
    | jother => rfl

/-- Extract the string payload the import would restore for a JSON value. -/
def jsonStr : JsonVal → Option String
  | JsonVal.jstr s => some s
  | JsonVal.jother => none

lemma importFold_vs (k : String) (hk : isNamespaced k = true) :
    ∀ (backup : List (String × JsonVal)) (st : Storage),
      (backup.map Prod.fst).Nodup → st.lookup k = none →
      (backup.foldl importStep st).lookup k = (backup.lookup k).bind jsonStr := by
  intro backup
  induction backup with
  | nil =>
    intro st _ hst
    simpa [List.lookup] using hst
  | cons kv rest ih =>
    intro st hnd hst
    obtain ⟨key, val⟩ := kv
    rw [List.map_cons, List.nodup_cons] at hnd
    rw [List.foldl_cons]
    by_cases hkk : k = key
    · subst hkk
      rw [importFold_untouched k rest _ hnd.1]
      cases val with
      | jstr s =>
        show (if isNamespaced k then setItem st k s else st).lookup k = _
        rw [if_pos hk, lookup_setItem, if_pos rfl]
        simp [List.lookup, jsonStr]
      | jother =>
        show st.lookup k = _
        rw [hst]
        simp [List.lookup, jsonStr]
    · have hb : (k == key) = false := by simp [hkk]
      have hstep : (importStep st (key, val)).lookup k = st.lookup k := by
        cases val with
        | jstr s =>
          show (if isNamespaced key then setItem st key s else st).lookup k = st.lookup k
          by_cases hns : isNamespaced key
          · rw [if_pos hns, lookup_setItem, if_neg hkk]
          · rw [if_neg hns]
        | jother => rfl
      rw [ih _ hnd.2 (hstep.trans hst)]
      simp [List.lookup, hb]

lemma lookup_cleared_vs (store : Storage) (k : String) (hk : isNamespaced k = true) :
    (store.filter (fun kv => !(isNamespaced kv.1))).lookup k = none := by
  induction store with
  | nil => rfl
  | cons kv rest ih =>
    obtain ⟨key, v⟩ := kv
    rw [List.filter_cons]
    by_cases hns : isNamespaced key
    · simp [hns, ih]
    · have hkne : (k == key) = false := by
        simp only [beq_eq_false_iff_ne, ne_eq]
        exact fun h => hns (h ▸ hk)
      simp [hns, List.lookup, hkne, ih]

lemma lookup_cleared_nonvs (store : Storage) (k : String) (hk : isNamespaced k = false) :
    (store.filter (fun kv => !(isNamespaced kv.1))).lookup k = store.lookup k := by
  induction store with
  | nil => rfl
  | cons kv rest ih =>
    obtain ⟨key, v⟩ := kv
    rw [List.filter_cons]
    by_cases hns : isNamespaced key
    · have hkne : (k == key) = false := by
        simp only [beq_eq_false_iff_ne, ne_eq]
        exact fun h => by rw [h, hns] at hk; exact Bool.noConfusion hk
      simp [hns, List.lookup, hkne, ih]
    · by_cases hkk : k = key
      · subst hkk
        simp [hns, List.lookup]
      · have hb : (k == key) = false := by simp [hkk]
        simp [hns, List.lookup, hb, ih]

lemma lookup_mem {κ β : Type} [BEq κ] [LawfulBEq κ] (m : List (κ × β)) (k : κ) (v : β)
    (h : m.lookup k = some v) : (k, v) ∈ m := by
  induction m with
  | nil => simp [List.lookup] at h
  | cons a t ih =>
    obtain ⟨a1, b1⟩ := a
    by_cases hk : k = a1
    · subst hk
      simp [List.lookup] at h
      rw [h]
      exact List.mem_cons_self _ _
    · have hb : (k == a1) = false := by simp [hk]
      simp [List.lookup, hb] at h
      exact List.mem_cons_of_mem _ (ih h)

/-- C6: A confirmed import on a parsed backup object (unique keys, as JSON
objects have) first deletes all existing namespaced (`vs_`-prefixed)
storage keys and restores the namespaced string values of the file
verbatim:
afterwards a namespaced key holds value `s` exactly when the file maps it
to the string `s` — a destructive overwrite, not a merge — while
non-namespaced storage keys are untouched. -/
theorem handleImport_spec (store : Storage) (backupData : List (String × JsonVal))
    (hnd : (backupData.map Prod.fst).Nodup) :
    (∀ k s, isNamespaced k = true →
      ((handleImport store backupData).lookup k = some s ↔
        (k, JsonVal.jstr s) ∈ backupData)) ∧
    (∀ k, isNamespaced k = false →
      (handleImport store backupData).lookup k = store.lookup k) := by
  constructor
  · intro k s hk
    unfold handleImport
    rw [importFold_vs k hk backupData _ hnd (lookup_cleared_vs store k hk)]
    constructor
    · intro h
      obtain ⟨v, hv, hvs⟩ := Option.bind_eq_some.mp h
      cases v with
      | jstr s2 =>
        have hs2 : s2 = s := by simpa [jsonStr] using hvs
        exact hs2 ▸ lookup_mem backupData k _ hv
      | jother => simp [jsonStr] at hvs
    · intro hmem
      rw [mem_lookup_of_nodup backupData hnd k (JsonVal.jstr s) hmem]
      rfl
  · intro k hk
    unfold handleImport
    rw [importFold_nonvs k hk, lookup_cleared_nonvs store k hk]

/-- Witness for C6 at a concrete store and backup file: the stale
namespaced key vs_old is deleted, the vs_foods_u key of the file is restored
verbatim, the metadata key is not imported, and the non-namespaced key is
untouched. -/
theorem handleImport_spec_witness :
    ((handleImport [("vs_old", "1"), ("other", "2")]
        [("vs_foods_u", JsonVal.jstr "x"), ("getfit_backup_meta", JsonVal.jother)]).lookup
      "vs_foods_u" = some "x") ∧
    ¬ ((handleImport [("vs_old", "1"), ("other", "2")]
        [("vs_foods_u", JsonVal.jstr "x"), ("getfit_backup_meta", JsonVal.jother)]).lookup
      "vs_old" = some "1") ∧
    ((handleImport [("vs_old", "1"), ("other", "2")]
        [("vs_foods_u", JsonVal.jstr "x"), ("getfit_backup_meta", JsonVal.jother)]).lookup
      "other" = some "2") :=
  ⟨((handleImport_spec [("vs_old", "1"), ("other", "2")]
        [("vs_foods_u", JsonVal.jstr "x"), ("getfit_backup_meta", JsonVal.jother)]
        (by decide)).1 "vs_foods_u" "x" (by decide)).mpr (by decide),
   fun h =>
     by
       have := ((handleImport_spec [("vs_old", "1"), ("other", "2")]
           [("vs_foods_u", JsonVal.jstr "x"), ("getfit_backup_meta", JsonVal.jother)]
           (by decide)).1 "vs_old" "1" (by decide)).mp h
       exact absurd this (by decide),
   by
     rw [(handleImport_spec [("vs_old", "1"), ("other", "2")]
         [("vs_foods_u", JsonVal.jstr "x"), ("getfit_backup_meta", JsonVal.jother)]
         (by decide)).2 "other" (by decide)]
     decide⟩

end MyBody
